import Mathlib

/-!
# Verification of the `simultaneous` admission gate

A shallow embedding of the Go package `simultaneous` (a bounded-concurrency
admission gate built on a buffered channel) together with proofs of the
specification's claims about it.

The embedding follows the context-aware version of the package source
(`Forever(ctx)` / `Timeout(ctx, timeout)`), which is the version the test
suite compiles against.

Modelling decisions:
* `chan struct{}` with a fixed buffer is modelled by `Chan`: only the buffer
  capacity and the current number of buffered elements are observable.
  A buffered send completes exactly when `len < cap`; a receive completes
  exactly when `0 < len`.  The channel length is the pool occupancy: each
  acquisition performs one send, each release of a real permit one receive.
* `Limit[T]` holds a *reference* to its channel (Go channels are reference
  values), so a heap `Heap : Nat → Chan` carries the channel states and
  reconfigured views (`SetForeverMessaging`) share the pool by sharing the
  reference.  The phantom tag `T` has no runtime content and is dropped.
* Go `select` nondeterminism (which ready case fires, and the state of the
  channel at the moment a blocking wait resolves) is supplied by an explicit
  schedule (`Sched` for `Forever`, `TSched` for `Timeout`) constrained by a
  validity predicate: a case can only be chosen when its readiness condition
  holds, and a `default` branch only when no case is ready.
* Callbacks (`func(context.Context)`) are observed through the event trace
  of their invocations; their bodies are opaque, so a configured callback is
  `some ()` and a nil one `none`.
* `time.Duration` is an `Int` (Go's int64 nanosecond count).
* Errors built by `errors.Errorf`/`errors.Wrapf` are modelled structurally:
  the format string is kept as a token list so "the message includes the
  capacity" is a membership statement, and the sentinel/wrapping structure
  is kept in the constructor.
-/

namespace Simultaneous

/-- Go `time.Duration`: an `int64` count of nanoseconds. -/
abbrev Duration := Int

/-- A Go buffered channel of `struct{}` with a fixed buffer: only the
capacity and the number of buffered elements are observable.  This models
the field `queue chan struct{}` of `Limit`. -/
structure Chan where
  cap : Nat
  len : Nat
deriving DecidableEq

/-- A buffered send (`l.queue <- struct{}{}`) can complete iff the buffer is
not full. -/
def Chan.sendReady (c : Chan) : Bool := c.len < c.cap

/-- A receive (`<-l.queue`) can complete iff the buffer is non-empty. -/
def Chan.recvReady (c : Chan) : Bool := 0 < c.len

/-- The effect of a completed send on the channel. -/
def Chan.send (c : Chan) : Chan := { c with len := c.len + 1 }

/-- The effect of a completed receive on the channel. -/
def Chan.recv (c : Chan) : Chan := { c with len := c.len - 1 }

/-- The store of channel states, indexed by channel reference.  Go channels
are reference values: a `Limit` holds a reference, and copies of the `Limit`
value (e.g. the views made by `SetForeverMessaging`) share the channel. -/
abbrev Heap := Nat → Chan

/-- A `context.Context` as the package consumes it: whether `ctx.Done()` is
closed, and the cause `ctx.Err()` reports once it is. -/
structure Ctx where
  done : Bool
  cause : String
deriving DecidableEq

/-- The `Limit[T]` struct.  `queue` is the reference to the buffered channel;
the three stuck-messaging fields are set only by `SetForeverMessaging`.
Callback bodies are opaque: a configured callback is `some ()`. -/
structure Limit where
  queue : Nat
  stuckCallback : Option Unit
  unstuckCallback : Option Unit
  stuckTimeout : Duration
deriving DecidableEq

/-- `New` (`func New[T any](limit int) *Limit[T]`): allocates a fresh buffered
channel of the given capacity at the fresh reference `ref` and returns the
`Limit` with zeroed stuck-messaging fields.  `make(chan struct{}, limit)`
panics at runtime when `limit` is negative; the panic is the `.error` case. -/
def New (limit : Int) (ref : Nat) : Except String (Limit × Chan) :=
  if limit < 0 then
    .error "makechan: size out of range"
  else
    .ok ({ queue := ref, stuckCallback := none, unstuckCallback := none,
           stuckTimeout := 0 },
         { cap := limit.toNat, len := 0 })

/-- One fragment of a formatted error message: literal text, an interpolated
duration (`%s` on a `time.Duration`), or an interpolated capacity
(`%d` on `cap(l.queue)`). -/
inductive MsgPart
  | text (s : String)
  | dur (d : Duration)
  | capacity (n : Nat)
deriving DecidableEq

/-- The message of `ErrTimeout.Errorf("timeout (%s) expired before any
simultaneous runner (of %d) became available", timeout, cap(l.queue))`. -/
def timeoutMsg (d : Duration) (n : Nat) : List MsgPart :=
  [.text "timeout (", .dur d,
   .text ") expired before any simultaneous runner (of ", .capacity n,
   .text ") became available"]

/-- The message of `errors.Wrapf(ctx.Err(), "context cancelled before any
simultaneous runner (of %d) became available", cap(l.queue))`. -/
def cancelledMsg (n : Nat) : List MsgPart :=
  [.text "context cancelled before any simultaneous runner (of ", .capacity n,
   .text ") became available"]

/-- The errors `Timeout` can return.  `timeoutErr` is produced by
`ErrTimeout.Errorf` and matches the sentinel `ErrTimeout` under `errors.Is`;
`cancelledErr` is produced by `errors.Wrapf(ctx.Err(), ...)` and wraps the
cancellation cause. -/
inductive GoError
  | timeoutErr (msg : List MsgPart)
  | cancelledErr (cause : String) (msg : List MsgPart)
deriving DecidableEq

/-- `errors.Is(e, ErrTimeout)`. -/
def GoError.isErrTimeout : GoError → Bool
  | .timeoutErr _ => true
  | .cancelledErr _ _ => false

/-- The body of a `limited[T]` function value: either the closure
`func() { <-l.queue }` capturing the channel reference of the `Limit` that
issued it, or the no-op closure `func() {}` returned on cancellation. -/
inductive PermitFn
  | recvQueue (ref : Nat)
  | noop
deriving DecidableEq

/-- `limited[T]`, a nilable function value (`type limited[T any] func()`).
`none` is the nil permit `limited[T](nil)` returned with an error. -/
abbrev Limited := Option PermitFn

/-- Running `Done()` on a permit.  `Done` calls the function only when it is
non-nil; the real permit's body `<-l.queue` is a receive, which blocks
(`none` result) while the channel is empty and otherwise removes one
element. -/
def Limited.Done : Limited → Heap → Option Heap
  | none, h => some h
  | some .noop, h => some h
  | some (.recvQueue r), h =>
      if (h r).recvReady then some (Function.update h r (h r).recv) else none

/-- An invocation of a stuck or unstuck callback, recording the context it
was passed. -/
inductive Ev
  | stuck (ctx : Ctx)
  | unstuck (ctx : Ctx)
deriving DecidableEq

/-- `if cb != nil { cb(ctx) }`: the trace it contributes. -/
def invokeIfSet (cb : Option Unit) (e : Ev) : List Ev :=
  match cb with
  | some _ => [e]
  | none => []

/-- Which case of `Forever`'s first `select` resolves. -/
inductive Winner
  | slot
  | cancel
  | stuckTimer
deriving DecidableEq

/-- A schedule for one `Forever` call: which case of each `select` resolves,
and the state of the channel at the moment it resolves (other goroutines may
have changed it while this call was blocked).  `w2 = true` means the second
stage's send case resolves, `w2 = false` its `<-ctx.Done()` case. -/
structure Sched where
  w1 : Winner
  q1 : Chan
  w2 : Bool
  q2 : Chan
deriving DecidableEq

/-- What Go's `select` semantics allows a schedule to do, given the channel
state `q` of `l.queue` at the call: the send case can resolve only when the
buffer is not full at that moment, the timer case exists only when a stuck
timeout is configured, and the capacity of a channel never changes. -/
def Sched.Valid (s : Sched) (l : Limit) (q : Chan) : Prop :=
  s.q1.cap = q.cap ∧ s.q2.cap = q.cap ∧
  (s.w1 = .slot → s.q1.sendReady = true) ∧
  (l.stuckTimeout = 0 → s.w1 ≠ .stuckTimer) ∧
  (s.w1 = .stuckTimer → s.w2 = true → s.q2.sendReady = true)

instance (s : Sched) (l : Limit) (q : Chan) : Decidable (s.Valid l q) := by
  unfold Sched.Valid; infer_instance

/-- The result of a `Forever` call: the returned `Limited`, the heap after
the call's channel interactions, and the trace of callback invocations. -/
structure ForeverResult where
  permit : Limited
  heap : Heap
  events : List Ev

/-- `func (l *Limit[T]) Forever(ctx context.Context) Limited[T]`.

With `stuckTimeout == 0`: `select` over the send and `<-ctx.Done()`; the
send yields the real permit `func() { <-l.queue }`, cancellation returns the
no-op permit `limited[T](func() {})` without touching the pool.

Otherwise a timer for `stuckTimeout` joins the `select`.  If it fires first
the stuck callback is invoked (when non-nil, passed `ctx`), then a second
`select` waits on the send and `<-ctx.Done()` only, and whichever resolves
the unstuck callback is invoked (when non-nil) before returning. -/
def Forever (l : Limit) (ctx : Ctx) (s : Sched) (h : Heap) : ForeverResult :=
  if l.stuckTimeout = 0 then
    if s.w1 = .slot then
      ⟨some (.recvQueue l.queue), Function.update h l.queue s.q1.send, []⟩
    else
      ⟨some .noop, h, []⟩
  else
    match s.w1 with
    | .slot => ⟨some (.recvQueue l.queue), Function.update h l.queue s.q1.send, []⟩
    | .cancel => ⟨some .noop, h, []⟩
    | .stuckTimer =>
        if s.w2 then
          ⟨some (.recvQueue l.queue), Function.update h l.queue s.q2.send,
           invokeIfSet l.stuckCallback (.stuck ctx) ++
             invokeIfSet l.unstuckCallback (.unstuck ctx)⟩
        else
          ⟨some .noop, h,
           invokeIfSet l.stuckCallback (.stuck ctx) ++
             invokeIfSet l.unstuckCallback (.unstuck ctx)⟩

/-- Which case of `Timeout`'s `select` resolves; for `timeout <= 0` the
`timer` alternative stands for the `default` branch. -/
inductive TWinner
  | slot
  | cancel
  | timer
deriving DecidableEq

/-- A schedule for one `Timeout` call: the resolving case and, for a
blocking wait, the channel state at the moment it resolves. -/
structure TSched where
  w : TWinner
  qr : Chan
deriving DecidableEq

/-- Validity of a `Timeout` schedule.  For `timeout <= 0` the `select` is
non-blocking, decided against the current channel state: a ready case may be
chosen, and `default` (`timer`) only when neither the send nor
`<-ctx.Done()` is ready.  For `timeout > 0` the wait blocks; the send case
resolves only against a non-full channel. -/
def TSched.Valid (s : TSched) (ctx : Ctx) (timeout : Duration) (q : Chan) : Prop :=
  if timeout ≤ 0 then
    s.qr = q ∧
    (s.w = .slot → q.sendReady = true) ∧
    (s.w = .cancel → ctx.done = true) ∧
    (s.w = .timer → q.sendReady = false ∧ ctx.done = false)
  else
    s.qr.cap = q.cap ∧ (s.w = .slot → s.qr.sendReady = true)

instance (s : TSched) (ctx : Ctx) (timeout : Duration) (q : Chan) :
    Decidable (s.Valid ctx timeout q) := by
  unfold TSched.Valid; infer_instance

/-- The result of a `Timeout` call: the returned `Limited` and error, the
heap after the call, and whether `timer.Stop()` was called / the timer fired
(for `timeout <= 0` no timer is created at all). -/
structure TimeoutResult where
  permit : Limited
  heap : Heap
  err : Option GoError
  timerStopCalled : Bool
  timerFired : Bool

/-- `func (l *Limit[T]) Timeout(ctx context.Context, timeout time.Duration)
(Limited[T], error)`.

`timeout <= 0`: non-blocking `select` with a `default`: a completed send
yields the real permit with nil error; a closed `ctx.Done()` yields the nil
permit and `errors.Wrapf(ctx.Err(), ...)`; `default` yields the nil permit
and `ErrTimeout.Errorf(...)`.

`timeout > 0`: a timer is created and the `select` blocks over the send,
`<-ctx.Done()` and the timer; the send and cancellation branches call
`timer.Stop()`, the timer branch returns after the timer fired. -/
def Timeout (l : Limit) (ctx : Ctx) (timeout : Duration) (s : TSched) (h : Heap) :
    TimeoutResult :=
  let q := h l.queue
  if timeout ≤ 0 then
    match s.w with
    | .slot =>
        ⟨some (.recvQueue l.queue), Function.update h l.queue q.send, none,
         false, false⟩
    | .cancel =>
        ⟨none, h, some (.cancelledErr ctx.cause (cancelledMsg q.cap)),
         false, false⟩
    | .timer =>
        ⟨none, h, some (.timeoutErr (timeoutMsg timeout q.cap)), false, false⟩
  else
    match s.w with
    | .slot =>
        ⟨some (.recvQueue l.queue), Function.update h l.queue s.qr.send, none,
         true, false⟩
    | .cancel =>
        ⟨none, h, some (.cancelledErr ctx.cause (cancelledMsg q.cap)),
         true, false⟩
    | .timer =>
        ⟨none, h, some (.timeoutErr (timeoutMsg timeout q.cap)), false, true⟩

/-- `func (l Limit[T]) SetForeverMessaging(...) *Limit[T]`: the receiver is
taken by value (a copy), the three stuck-messaging fields of the copy are
assigned, and a pointer to the copy is returned; the channel reference is
copied along, so the view shares the pool. -/
def SetForeverMessaging (l : Limit) (stuckTimeout : Duration)
    (stuckCallback unstuckCallback : Option Unit) : Limit :=
  { l with stuckTimeout := stuckTimeout, stuckCallback := stuckCallback,
           unstuckCallback := unstuckCallback }

/-- The values implementing the sealed interface `Enforced[T]`
(`privateMethod()`): permits issued by a gate (`limited[T]`) and the bypass
token (`unlimited[T]{}`). -/
inductive Enforced
  | ofLimited (p : Limited)
  | ofUnlimited
deriving DecidableEq

/-- `func Unlimited[T any]() Enforced[T] { return &unlimited[T]{} }`, read in
state-passing style over the channel store: the body allocates the empty
struct `unlimited[T]{}` and performs no channel operation, so the store
passes through untouched. -/
def Unlimited (h : Heap) : Enforced × Heap :=
  (.ofUnlimited, h)

/-- A `Forever` schedule whose resolution states are the current heap state
of the gate's channel: in an interleaved trace at the granularity of pool
interactions, each call's single send happens against the pool state of that
moment, every other pool change being some other step of the trace. -/
def Sched.ValidNow (s : Sched) (l : Limit) (h : Heap) : Prop :=
  s.Valid l (h l.queue) ∧ s.q1 = h l.queue ∧ s.q2 = h l.queue

instance (s : Sched) (l : Limit) (h : Heap) : Decidable (s.ValidNow l h) := by
  unfold Sched.ValidNow; infer_instance

/-- A `Timeout` schedule whose resolution state is the current heap state of
the gate's channel. -/
def TSched.ValidNow (s : TSched) (l : Limit) (ctx : Ctx) (timeout : Duration)
    (h : Heap) : Prop :=
  s.Valid ctx timeout (h l.queue) ∧ s.qr = h l.queue

instance (s : TSched) (l : Limit) (ctx : Ctx) (timeout : Duration) (h : Heap) :
    Decidable (s.ValidNow l ctx timeout h) := by
  unfold TSched.ValidNow; infer_instance

/-- One atomic interaction of the gate's operations with the channel store:
a `Forever` call resolving, a `Timeout` call resolving, or a `Done()` call
completing on some permit.  Any gate (in particular any reconfigured view of
any gate) may act. -/
inductive PoolStep : Heap → Heap → Prop
  | foreverStep (l : Limit) (ctx : Ctx) (s : Sched) (h : Heap) :
      s.ValidNow l h → PoolStep h (Forever l ctx s h).heap
  | timeoutStep (l : Limit) (ctx : Ctx) (d : Duration) (s : TSched) (h : Heap) :
      s.ValidNow l ctx d h → PoolStep h (Timeout l ctx d s h).heap
  | doneStep (p : Limited) (h h' : Heap) :
      Limited.Done p h = some h' → PoolStep h h'

/-- Any interleaving of `Forever` / `Timeout` / `Done` interactions. -/
inductive PoolReach : Heap → Heap → Prop
  | refl (h : Heap) : PoolReach h h
  | step (h h' h'' : Heap) : PoolStep h h' → PoolReach h' h'' → PoolReach h h''

theorem forever_heap_cases (l : Limit) (ctx : Ctx) (s : Sched) (h : Heap)
    (hv : s.ValidNow l h) :
    ((Forever l ctx s h).heap = Function.update h l.queue (h l.queue).send ∧
      (h l.queue).sendReady = true) ∨
    (Forever l ctx s h).heap = h := by
  obtain ⟨⟨hc1, hc2, hs1, hz, hs2⟩, hq1, hq2⟩ := hv
  unfold Forever
  by_cases h0 : l.stuckTimeout = 0
  · simp only [h0, if_true]
    by_cases hw : s.w1 = .slot
    · refine Or.inl ⟨?_, ?_⟩
      · simp [hw, hq1]
      · rw [← hq1]; exact hs1 hw
    · simp [hw]
  · simp only [h0, if_false]
    cases hw : s.w1 with
    | slot =>
        refine Or.inl ⟨?_, ?_⟩
        · simp [hq1]
        · rw [← hq1]; exact hs1 hw
    | cancel => simp
    | stuckTimer =>
        by_cases hw2 : s.w2
        · refine Or.inl ⟨?_, ?_⟩
          · simp [hw2, hq2]
          · rw [← hq2]; exact hs2 hw hw2
        · simp [hw2]

theorem timeout_heap_cases (l : Limit) (ctx : Ctx) (d : Duration) (s : TSched)
    (h : Heap) (hv : s.ValidNow l ctx d h) :
    ((Timeout l ctx d s h).heap = Function.update h l.queue (h l.queue).send ∧
      (h l.queue).sendReady = true) ∨
    (Timeout l ctx d s h).heap = h := by
  obtain ⟨hval, hqr⟩ := hv
  unfold Timeout
  by_cases hd : d ≤ 0
  · rw [TSched.Valid, if_pos hd] at hval
    obtain ⟨-, hs, -, -⟩ := hval
    simp only [hd, if_true]
    cases hw : s.w with
    | slot => exact Or.inl (by simp [hs hw])
    | cancel => simp
    | timer => simp
  · rw [TSched.Valid, if_neg hd] at hval
    obtain ⟨-, hs⟩ := hval
    simp only [hd, if_false]
    cases hw : s.w with
    | slot =>
        refine Or.inl ⟨?_, ?_⟩
        · simp [hqr]
        · rw [← hqr]; exact hs hw
    | cancel => simp
    | timer => simp

theorem done_heap_cases (p : Limited) (h h' : Heap)
    (hd : Limited.Done p h = some h') :
    (∃ r, h' = Function.update h r (h r).recv ∧ (h r).recvReady = true) ∨
    h' = h := by
  cases p with
  | none => exact Or.inr (by simpa [Limited.Done] using hd.symm)
  | some pf =>
      cases pf with
      | noop => exact Or.inr (by simpa [Limited.Done] using hd.symm)
      | recvQueue r =>
          by_cases hr : (h r).recvReady
          · refine Or.inl ⟨r, ?_, hr⟩
            rw [Limited.Done, if_pos hr] at hd
            exact (Option.some_inj.mp hd).symm
          · rw [Limited.Done, if_neg hr] at hd
            exact absurd hd (by simp)

theorem poolStep_preserves (h h' : Heap) (st : PoolStep h h') (r : Nat)
    (hb : (h r).len ≤ (h r).cap) : (h' r).len ≤ (h' r).cap := by
  have bound : ∀ (q : Nat) (c : Chan),
      (c = (h q).send ∧ (h q).sendReady = true) ∨ c = (h q).recv →
      (Function.update h q c r).len ≤ (Function.update h q c r).cap := by
    intro q c hc
    by_cases hrq : r = q
    · subst hrq
      rcases hc with ⟨hcs, hready⟩ | hcr
      · subst hcs
        simp only [Function.update_same, Chan.send]
        simp only [Chan.sendReady, decide_eq_true_eq] at hready
        omega
      · subst hcr
        simp only [Function.update_same, Chan.recv]
        omega
    · rw [Function.update_noteq hrq]
      exact hb
  cases st with
  | foreverStep l ctx s h hv =>
      rcases forever_heap_cases l ctx s h hv with ⟨he, hr⟩ | he
      · rw [he]; exact bound l.queue (h l.queue).send (Or.inl ⟨rfl, hr⟩)
      · rw [he]; exact hb
  | timeoutStep l ctx d s h hv =>
      rcases timeout_heap_cases l ctx d s h hv with ⟨he, hr⟩ | he
      · rw [he]; exact bound l.queue (h l.queue).send (Or.inl ⟨rfl, hr⟩)
      · rw [he]; exact hb
  | doneStep p h h' hd =>
      rcases done_heap_cases p h h' hd with ⟨q, he, -⟩ | he
      · rw [he]; exact bound q (h q).recv (Or.inr rfl)
      · rw [he]; exact hb

/-- C1. Capacity invariant: along any interleaving of `Forever`, `Timeout`
and `Done` interactions, every channel's occupancy stays within `[0, cap]`
(the occupancy is the count of un-released real permits: each acquisition is
one send, each release one receive); moreover an acquisition yields a real
permit only when the occupancy was strictly below the capacity at the moment
the attempt resolved. -/
theorem capacity_invariant :
    (∀ h h' : Heap, PoolReach h h' → ∀ r : Nat, (h r).len ≤ (h r).cap →
      (h' r).len ≤ (h' r).cap ∧ 0 ≤ ((h' r).len : Int)) ∧
    (∀ (l : Limit) (ctx : Ctx) (s : Sched) (h : Heap), s.ValidNow l h →
      (Forever l ctx s h).permit = some (.recvQueue l.queue) →
      (h l.queue).len < (h l.queue).cap) ∧
    (∀ (l : Limit) (ctx : Ctx) (d : Duration) (s : TSched) (h : Heap),
      s.ValidNow l ctx d h →
      (Timeout l ctx d s h).permit = some (.recvQueue l.queue) →
      (h l.queue).len < (h l.queue).cap) := by
  refine ⟨?_, ?_, ?_⟩
  · intro h h' hr
    induction hr with
    | refl h => exact fun r hb => ⟨hb, by positivity⟩
    | step h h1 h2 st _ ih =>
        intro r hb
        exact ih r (poolStep_preserves h h1 st r hb)
  · intro l ctx s h hv hp
    obtain ⟨⟨hc1, hc2, hs1, hz, hs2⟩, hq1, hq2⟩ := hv
    unfold Forever at hp
    by_cases h0 : l.stuckTimeout = 0
    · simp only [h0, if_true] at hp
      by_cases hw : s.w1 = .slot
      · have := hs1 hw
        rw [hq1] at this
        simpa [Chan.sendReady] using this
      · simp [hw] at hp
    · simp only [h0, if_false] at hp
      cases hw : s.w1 with
      | slot =>
          have := hs1 hw
          rw [hq1] at this
          simpa [Chan.sendReady] using this
      | cancel => rw [hw] at hp; simp at hp
      | stuckTimer =>
          rw [hw] at hp
          by_cases hw2 : s.w2
          · have := hs2 hw hw2
            rw [hq2] at this
            simpa [Chan.sendReady] using this
          · simp [hw2] at hp
  · intro l ctx d s h hv hp
    obtain ⟨hval, hqr⟩ := hv
    unfold Timeout at hp
    by_cases hd : d ≤ 0
    · rw [TSched.Valid, if_pos hd] at hval
      obtain ⟨-, hs, -, -⟩ := hval
      simp only [hd, if_true] at hp
      cases hw : s.w with
      | slot => simpa [Chan.sendReady] using hs hw
      | cancel => rw [hw] at hp; simp at hp
      | timer => rw [hw] at hp; simp at hp
    · rw [TSched.Valid, if_neg hd] at hval
      obtain ⟨-, hs⟩ := hval
      simp only [hd, if_false] at hp
      cases hw : s.w with
      | slot =>
          have := hs hw
          rw [hqr] at this
          simpa [Chan.sendReady] using this
      | cancel => rw [hw] at hp; simp at hp
      | timer => rw [hw] at hp; simp at hp

/-- Witness for `capacity_invariant`: a capacity-1 pool at occupancy 0, the
empty trace, and a slot-winning `Forever` schedule against it. -/
theorem capacity_invariant_witness :
    ((Chan.mk 1 0).len ≤ (Chan.mk 1 0).cap ∧ 0 ≤ ((Chan.mk 1 0).len : Int)) ∧
    (Chan.mk 1 0).len < (Chan.mk 1 0).cap :=
  ⟨capacity_invariant.1 (fun _ => ⟨1, 0⟩) (fun _ => ⟨1, 0⟩) (PoolReach.refl _) 0
      (by decide),
   capacity_invariant.2.1 ⟨0, none, none, 0⟩ ⟨false, ""⟩
      ⟨.slot, ⟨1, 0⟩, true, ⟨1, 0⟩⟩ (fun _ => ⟨1, 0⟩) (by decide) (by decide)⟩

/-- C2. Timeout outcome mapping: under any schedule Go's `select` semantics
allows, the result of `Timeout` is exactly one of: slot obtained (real
permit, nil error); cancellation fired (nil no-op permit, a `Cancelled`
error wrapping `ctx.Err()` whose message includes the pool capacity — for
`timeout <= 0` that case only fires when cancellation is already signaled);
otherwise (nil no-op permit, the sentinel `ErrTimeout`, whose message
includes the requested duration and the pool capacity).  For a positive
duration the timer is disposed of whichever branch resolves. -/
theorem timeout_outcome_mapping (l : Limit) (ctx : Ctx) (d : Duration)
    (s : TSched) (h : Heap) (hv : s.Valid ctx d (h l.queue)) :
    (s.w = .slot →
      (Timeout l ctx d s h).permit = some (.recvQueue l.queue) ∧
      (Timeout l ctx d s h).err = none) ∧
    (s.w = .cancel →
      (Timeout l ctx d s h).permit = none ∧
      (Timeout l ctx d s h).err =
        some (.cancelledErr ctx.cause (cancelledMsg (h l.queue).cap)) ∧
      MsgPart.capacity (h l.queue).cap ∈ cancelledMsg (h l.queue).cap ∧
      (d ≤ 0 → ctx.done = true)) ∧
    (s.w = .timer →
      (Timeout l ctx d s h).permit = none ∧
      (Timeout l ctx d s h).err =
        some (.timeoutErr (timeoutMsg d (h l.queue).cap)) ∧
      MsgPart.capacity (h l.queue).cap ∈ timeoutMsg d (h l.queue).cap ∧
      MsgPart.dur d ∈ timeoutMsg d (h l.queue).cap) ∧
    (0 < d → (Timeout l ctx d s h).timerStopCalled = true ∨
      (Timeout l ctx d s h).timerFired = true) := by
  unfold Timeout
  by_cases hd : d ≤ 0
  · rw [TSched.Valid, if_pos hd] at hv
    obtain ⟨-, -, hcancel, -⟩ := hv
    simp only [hd, if_true]
    refine ⟨?_, ?_, ?_, ?_⟩
    · intro hw; rw [hw]; simp
    · intro hw; rw [hw]
      exact ⟨rfl, rfl, by simp [cancelledMsg], fun _ => hcancel hw⟩
    · intro hw; rw [hw]
      exact ⟨rfl, rfl, by simp [timeoutMsg], by simp [timeoutMsg]⟩
    · intro hpos; exact absurd (lt_of_lt_of_le hpos hd) (lt_irrefl 0)
  · simp only [hd, if_false]
    refine ⟨?_, ?_, ?_, ?_⟩
    · intro hw; rw [hw]; simp
    · intro hw; rw [hw]
      exact ⟨rfl, rfl, by simp [cancelledMsg], fun habs => habs.elim⟩
    · intro hw; rw [hw]
      exact ⟨rfl, rfl, by simp [timeoutMsg], by simp [timeoutMsg]⟩
    · intro _
      cases hw : s.w <;> simp

/-- Witness for `timeout_outcome_mapping`: a cancelled context against a
full capacity-1 pool with `timeout = 0` yields the `Cancelled` error. -/
theorem timeout_outcome_mapping_witness :
    (TSched.mk .cancel ⟨1, 1⟩).Valid ⟨true, "context canceled"⟩ 0
      ((fun _ => Chan.mk 1 1) ((⟨0, none, none, 0⟩ : Limit)).queue) ∧
    (Timeout ⟨0, none, none, 0⟩ ⟨true, "context canceled"⟩ 0 ⟨.cancel, ⟨1, 1⟩⟩
        (fun _ => ⟨1, 1⟩)).err =
      some (.cancelledErr "context canceled" (cancelledMsg 1)) :=
  ⟨by decide,
   ((timeout_outcome_mapping ⟨0, none, none, 0⟩ ⟨true, "context canceled"⟩ 0
      ⟨.cancel, ⟨1, 1⟩⟩ (fun _ => ⟨1, 1⟩) (by decide)).2.1 rfl).2.1⟩

/-- C3. `Forever` never returns an error: every call returns a (non-nil)
permit; whenever the wait resolves by cancellation — in either the plain
wait or the second stage of a stuck wait — the returned permit is the no-op
closure `func() {}`, the pool is untouched, and running `Done()` on that
permit leaves every channel, hence every pool occupancy, unchanged. -/
theorem forever_no_error :
    (∀ (l : Limit) (ctx : Ctx) (s : Sched) (h : Heap),
      (Forever l ctx s h).permit.isSome = true) ∧
    (∀ (l : Limit) (ctx : Ctx) (s : Sched) (h : Heap),
      s.w1 ≠ .slot → (s.w1 = .stuckTimer → s.w2 = false) →
      (Forever l ctx s h).permit = some .noop ∧
      (Forever l ctx s h).heap = h ∧
      ∀ h' : Heap,
        Limited.Done (Forever l ctx s h).permit h' = some h') := by
  constructor
  · intro l ctx s h
    unfold Forever
    by_cases h0 : l.stuckTimeout = 0
    · simp only [h0, if_true]
      by_cases hw : s.w1 = .slot <;> simp [hw]
    · simp only [h0, if_false]
      cases s.w1 <;> [skip; skip; by_cases hw2 : s.w2] <;> simp [*]
  · intro l ctx s h hns hcs
    have key : (Forever l ctx s h).permit = some .noop ∧
        (Forever l ctx s h).heap = h := by
      unfold Forever
      by_cases h0 : l.stuckTimeout = 0
      · simp [h0, hns]
      · simp only [h0, if_false]
        cases hw : s.w1 with
        | slot => exact absurd hw hns
        | cancel => simp
        | stuckTimer => simp [hcs hw]
    exact ⟨key.1, key.2, fun h' => by rw [key.1]; rfl⟩

/-- Witness for `forever_no_error`: a cancellation-resolved plain wait. -/
theorem forever_no_error_witness :
    (Forever ⟨0, none, none, 0⟩ ⟨true, "context canceled"⟩
        ⟨.cancel, ⟨1, 1⟩, false, ⟨1, 1⟩⟩ (fun _ => ⟨1, 1⟩)).permit =
      some .noop :=
  (forever_no_error.2 ⟨0, none, none, 0⟩ ⟨true, "context canceled"⟩
    ⟨.cancel, ⟨1, 1⟩, false, ⟨1, 1⟩⟩ (fun _ => ⟨1, 1⟩) (by decide)
    (by decide)).1

/-- C4. Stuck/unstuck protocol: on a gate whose stuck timeout is positive
and whose two callbacks are configured, a `Forever` call whose first wait
resolves by the stuck timer invokes the stuck callback once (passed `ctx`)
and then, after the two-way second wait, the unstuck callback once (passed
`ctx`) before returning — a real permit when the second wait resolved by
acquisition, the no-op permit when it resolved by cancellation; a call whose
first wait resolves by a slot or by cancellation invokes neither callback;
in every case the stuck- and unstuck-invocation counts agree. -/
theorem forever_stuck_unstuck_pairing (l : Limit) (ctx : Ctx) (s : Sched)
    (h : Heap) (hD : 0 < l.stuckTimeout) (hsc : l.stuckCallback = some ())
    (huc : l.unstuckCallback = some ()) :
    (s.w1 = .stuckTimer →
      (Forever l ctx s h).events = [.stuck ctx, .unstuck ctx] ∧
      (s.w2 = true →
        (Forever l ctx s h).permit = some (.recvQueue l.queue)) ∧
      (s.w2 = false → (Forever l ctx s h).permit = some .noop)) ∧
    (s.w1 ≠ .stuckTimer → (Forever l ctx s h).events = []) ∧
    (Forever l ctx s h).events.count (Ev.stuck ctx) =
      (Forever l ctx s h).events.count (Ev.unstuck ctx) := by
  have h0 : ¬ l.stuckTimeout = 0 := ne_of_gt hD
  unfold Forever
  simp only [h0, if_false]
  refine ⟨?_, ?_, ?_⟩
  · intro hw
    rw [hw]
    by_cases hw2 : s.w2 <;> simp [hw2, invokeIfSet, hsc, huc]
  · intro hw
    cases hww : s.w1 with
    | slot => simp
    | cancel => simp
    | stuckTimer => exact absurd hww hw
  · cases hww : s.w1 with
    | slot => simp
    | cancel => simp
    | stuckTimer =>
        by_cases hw2 : s.w2 <;>
          simp [hw2, invokeIfSet, hsc, huc, List.count_cons]

/-- Witness for `forever_stuck_unstuck_pairing`: a configured gate whose
first wait resolves by the stuck timer and whose second wait resolves by
acquisition. -/
theorem forever_stuck_unstuck_pairing_witness :
    (Forever ⟨0, some (), some (), 5⟩ ⟨false, ""⟩
        ⟨.stuckTimer, ⟨1, 1⟩, true, ⟨1, 0⟩⟩ (fun _ => ⟨1, 1⟩)).events =
      [.stuck ⟨false, ""⟩, .unstuck ⟨false, ""⟩] :=
  ((forever_stuck_unstuck_pairing ⟨0, some (), some (), 5⟩ ⟨false, ""⟩
      ⟨.stuckTimer, ⟨1, 1⟩, true, ⟨1, 0⟩⟩ (fun _ => ⟨1, 1⟩) (by decide) rfl
      rfl).1 rfl).1

/-- C5. Double-release is unguarded: the real permit is the bare closure
`func() { <-l.queue }` with no already-released flag, so a second `Done()`
on the same permit performs a second receive; with at least two slots
occupied both calls complete and the occupancy drops by two for the one
reservation. -/
theorem double_release_unguarded (l : Limit) (h : Heap)
    (h2 : 2 ≤ (h l.queue).len) :
    ∃ h' h'' : Heap,
      Limited.Done (some (.recvQueue l.queue)) h = some h' ∧
      Limited.Done (some (.recvQueue l.queue)) h' = some h'' ∧
      (h' l.queue).len + 1 = (h l.queue).len ∧
      (h'' l.queue).len + 2 = (h l.queue).len := by
  refine ⟨Function.update h l.queue (h l.queue).recv, ?_, ?_, ?_, ?_, ?_⟩
  · exact Function.update (Function.update h l.queue (h l.queue).recv) l.queue
      ((Function.update h l.queue (h l.queue).recv) l.queue).recv
  · rw [Limited.Done, if_pos]
    simp only [Chan.recvReady, decide_eq_true_eq]
    omega
  · rw [Limited.Done, if_pos]
    simp only [Function.update_same, Chan.recvReady, Chan.recv,
      decide_eq_true_eq]
    omega
  · simp only [Function.update_same, Chan.recv]
    omega
  · simp only [Function.update_same, Chan.recv]
    omega

/-- Witness for `double_release_unguarded`: a capacity-2 pool with both
slots held. -/
theorem double_release_unguarded_witness :
    2 ≤ ((fun _ => Chan.mk 2 2) ((⟨0, none, none, 0⟩ : Limit)).queue).len ∧
    ∃ h' h'' : Heap,
      Limited.Done (some (.recvQueue (⟨0, none, none, 0⟩ : Limit).queue))
          (fun _ => ⟨2, 2⟩) = some h' ∧
      Limited.Done (some (.recvQueue (⟨0, none, none, 0⟩ : Limit).queue)) h' =
        some h'' ∧
      (h' (⟨0, none, none, 0⟩ : Limit).queue).len + 1 =
        ((fun _ => Chan.mk 2 2) ((⟨0, none, none, 0⟩ : Limit)).queue).len ∧
      (h'' (⟨0, none, none, 0⟩ : Limit).queue).len + 2 =
        ((fun _ => Chan.mk 2 2) ((⟨0, none, none, 0⟩ : Limit)).queue).len :=
  ⟨by decide,
   double_release_unguarded ⟨0, none, none, 0⟩ (fun _ => ⟨2, 2⟩) (by decide)⟩

/-- C6. `SetForeverMessaging` takes its receiver by value and only assigns
fields of the copy, so (modelled as the pure copy-and-update the value
receiver guarantees) the returned view carries the given stuck-timeout and
callbacks, shares the receiver's channel reference — the pool state read
through either view is the same, and a real permit released through either
view performs the same receive — and `Timeout`, which never reads the three
stuck-messaging fields, behaves identically on the original and on the
view. -/
theorem setForeverMessaging_view (l : Limit) (d : Duration)
    (sc uc : Option Unit) :
    (SetForeverMessaging l d sc uc).queue = l.queue ∧
    (SetForeverMessaging l d sc uc).stuckTimeout = d ∧
    (SetForeverMessaging l d sc uc).stuckCallback = sc ∧
    (SetForeverMessaging l d sc uc).unstuckCallback = uc ∧
    (∀ h : Heap, h (SetForeverMessaging l d sc uc).queue = h l.queue) ∧
    (∀ h : Heap,
      Limited.Done (some (.recvQueue (SetForeverMessaging l d sc uc).queue)) h =
        Limited.Done (some (.recvQueue l.queue)) h) ∧
    (∀ (ctx : Ctx) (d' : Duration) (s : TSched) (h : Heap),
      Timeout (SetForeverMessaging l d sc uc) ctx d' s h =
        Timeout l ctx d' s h) :=
  ⟨rfl, rfl, rfl, rfl, fun _ => rfl, fun _ => rfl, fun _ _ _ _ => rfl⟩

theorem timeout_zero_full_fails (l : Limit) (ctx : Ctx) (s : TSched) (h : Heap)
    (hfull : (h l.queue).sendReady = false) (hnd : ctx.done = false)
    (hv : s.Valid ctx 0 (h l.queue)) :
    (Timeout l ctx 0 s h).err =
      some (.timeoutErr (timeoutMsg 0 (h l.queue).cap)) ∧
    (Timeout l ctx 0 s h).permit = none := by
  rw [TSched.Valid, if_pos (le_refl (0 : Duration))] at hv
  obtain ⟨-, hslot, hcancel, -⟩ := hv
  cases hw : s.w with
  | slot => rw [hslot hw] at hfull; exact absurd hfull (by simp)
  | cancel => rw [hcancel hw] at hnd; exact absurd hnd (by simp)
  | timer => exact ⟨by simp [Timeout, hw], by simp [Timeout, hw]⟩

/-- C7. Round-trip: acquiring a real permit raises the occupancy by one and
running its `Done()` restores the exact prior pool state; on a full pool
(with no cancellation pending) every valid non-blocking `Timeout` attempt
fails with `ErrTimeout`, one release makes the next non-blocking attempt
succeed, and after that success the pool is full again so every further
valid non-blocking attempt fails — exactly one more acquisition than
before. -/
theorem acquire_release_round_trip :
    (∀ (l : Limit) (ctx : Ctx) (h : Heap), (h l.queue).sendReady = true →
      (Timeout l ctx 0 ⟨.slot, h l.queue⟩ h).permit =
        some (.recvQueue l.queue) ∧
      (Timeout l ctx 0 ⟨.slot, h l.queue⟩ h).err = none ∧
      ((Timeout l ctx 0 ⟨.slot, h l.queue⟩ h).heap l.queue).len =
        (h l.queue).len + 1 ∧
      Limited.Done (some (.recvQueue l.queue))
          ((Timeout l ctx 0 ⟨.slot, h l.queue⟩ h).heap) = some h) ∧
    (∀ (l : Limit) (ctx : Ctx) (h : Heap),
      (h l.queue).len = (h l.queue).cap → 0 < (h l.queue).cap →
      ctx.done = false →
      (∀ s : TSched, s.Valid ctx 0 (h l.queue) →
        (Timeout l ctx 0 s h).err =
          some (.timeoutErr (timeoutMsg 0 (h l.queue).cap))) ∧
      ∃ h' : Heap,
        Limited.Done (some (.recvQueue l.queue)) h = some h' ∧
        (h' l.queue).len + 1 = (h l.queue).len ∧
        (h' l.queue).sendReady = true ∧
        (Timeout l ctx 0 ⟨.slot, h' l.queue⟩ h').permit =
          some (.recvQueue l.queue) ∧
        (Timeout l ctx 0 ⟨.slot, h' l.queue⟩ h').err = none ∧
        ∀ s : TSched,
          s.Valid ctx 0
            ((Timeout l ctx 0 ⟨.slot, h' l.queue⟩ h').heap l.queue) →
          (Timeout l ctx 0 s
              ((Timeout l ctx 0 ⟨.slot, h' l.queue⟩ h').heap)).err =
            some (.timeoutErr (timeoutMsg 0 (h l.queue).cap))) := by
  constructor
  · intro l ctx h hready
    refine ⟨by simp [Timeout], by simp [Timeout], ?_, ?_⟩
    · simp [Timeout, Function.update_same, Chan.send]
    · have hstep : (Timeout l ctx 0 ⟨.slot, h l.queue⟩ h).heap =
          Function.update h l.queue (h l.queue).send := by
        simp [Timeout]
      rw [hstep, Limited.Done, if_pos]
      · congr 1
        rw [Function.update_same]
        have hsr : (h l.queue).send.recv = h l.queue := by
          simp [Chan.send, Chan.recv]
        rw [Function.update_idem, hsr, Function.update_eq_self]
      · simp [Function.update_same, Chan.send, Chan.recvReady]
  · intro l ctx h hfull hpos hnd
    have hsr : (h l.queue).sendReady = false := by
      simp only [Chan.sendReady, decide_eq_false_iff_not]
      omega
    refine ⟨fun s hv => (timeout_zero_full_fails l ctx s h hsr hnd hv).1, ?_⟩
    refine ⟨Function.update h l.queue (h l.queue).recv, ?_, ?_, ?_, ?_, ?_, ?_⟩
    · rw [Limited.Done, if_pos]
      simp only [Chan.recvReady, decide_eq_true_eq]
      omega
    · simp only [Function.update_same, Chan.recv]
      omega
    · simp only [Function.update_same, Chan.recv, Chan.sendReady,
        decide_eq_true_eq]
      omega
    · simp [Timeout]
    · simp [Timeout]
    · intro s hv
      have hH : (Timeout l ctx 0
          ⟨.slot, (Function.update h l.queue (h l.queue).recv) l.queue⟩
          (Function.update h l.queue (h l.queue).recv)).heap l.queue =
          Chan.mk (h l.queue).cap (h l.queue).cap := by
        simp only [Timeout, le_refl, if_true, Function.update_same,
          Chan.recv, Chan.send, Chan.mk.injEq]
        exact ⟨trivial, by omega⟩
      have hfull2 : ((Timeout l ctx 0
          ⟨.slot, (Function.update h l.queue (h l.queue).recv) l.queue⟩
          (Function.update h l.queue (h l.queue).recv)).heap l.queue).sendReady
          = false := by
        rw [hH]
        simp [Chan.sendReady]
      have hres := (timeout_zero_full_fails l ctx s _ hfull2 hnd hv).1
      rw [hH] at hres
      exact hres

/-- Witness for `acquire_release_round_trip`: a capacity-1 pool at
occupancy 0. -/
theorem acquire_release_round_trip_witness :
    ((fun _ => Chan.mk 1 0) ((⟨0, none, none, 0⟩ : Limit)).queue).sendReady =
      true ∧
    (Timeout ⟨0, none, none, 0⟩ ⟨false, ""⟩ 0 ⟨.slot, Chan.mk 1 0⟩
        (fun _ => ⟨1, 0⟩)).permit = some (.recvQueue 0) :=
  ⟨by decide,
   (acquire_release_round_trip.1 ⟨0, none, none, 0⟩ ⟨false, ""⟩
      (fun _ => ⟨1, 0⟩) (by decide)).1⟩

/-- C8 counterexample: on the fresh capacity-0 gate, `Timeout` with an
already-cancelled context and `timeout = 0` does not return the `Timeout`
error — it returns the `Cancelled` wrap of `ctx.Err()` — refuting the
claim's "always returns the Timeout error". -/
theorem new_zero_cancelled_counterexample :
    New 0 0 = .ok (⟨0, none, none, 0⟩, ⟨0, 0⟩) ∧
    (TSched.mk .cancel ⟨0, 0⟩).Valid ⟨true, "context canceled"⟩ 0
      ((fun _ => Chan.mk 0 0) ((⟨0, none, none, 0⟩ : Limit)).queue) ∧
    (Timeout ⟨0, none, none, 0⟩ ⟨true, "context canceled"⟩ 0
        ⟨.cancel, ⟨0, 0⟩⟩ (fun _ => ⟨0, 0⟩)).err =
      some (.cancelledErr "context canceled" (cancelledMsg 0)) ∧
    Option.map GoError.isErrTimeout
      (Timeout ⟨0, none, none, 0⟩ ⟨true, "context canceled"⟩ 0
        ⟨.cancel, ⟨0, 0⟩⟩ (fun _ => ⟨0, 0⟩)).err = some false :=
  ⟨rfl, by decide, rfl, rfl⟩

/-- C8 (amended). Construction never fails for the spec's domain
`capacity >= 0`: `New` returns the gate with a fresh empty channel of that
capacity.  On a capacity-0 gate a non-blocking `Timeout` never obtains a
slot: it returns the nil no-op permit and an error — `ErrTimeout` whenever
cancellation has not been signaled, the `Cancelled` wrap when it has — and
`Forever` never obtains a slot: any valid resolution returns the no-op
permit. -/
theorem new_never_fails_amended :
    (∀ c : Int, 0 ≤ c → ∀ ref : Nat,
      New c ref = .ok (⟨ref, none, none, 0⟩, ⟨c.toNat, 0⟩)) ∧
    (∀ (l : Limit) (ctx : Ctx) (s : TSched) (h : Heap), (h l.queue).cap = 0 →
      s.Valid ctx 0 (h l.queue) →
      (Timeout l ctx 0 s h).permit = none ∧
      (Timeout l ctx 0 s h).err.isSome = true ∧
      (ctx.done = false →
        (Timeout l ctx 0 s h).err = some (.timeoutErr (timeoutMsg 0 0)))) ∧
    (∀ (l : Limit) (ctx : Ctx) (s : Sched) (h : Heap), (h l.queue).cap = 0 →
      s.Valid l (h l.queue) →
      (Forever l ctx s h).permit = some .noop) := by
  refine ⟨?_, ?_, ?_⟩
  · intro c hc ref
    rw [New, if_neg]
    omega
  · intro l ctx s h hcap hv
    rw [TSched.Valid, if_pos (le_refl (0 : Duration))] at hv
    obtain ⟨-, hslot, hcancel, -⟩ := hv
    have hsr : (h l.queue).sendReady = false := by
      simp [Chan.sendReady, hcap]
    cases hw : s.w with
    | slot => rw [hslot hw] at hsr; exact absurd hsr (by simp)
    | cancel =>
        refine ⟨by simp [Timeout, hw], by simp [Timeout, hw], ?_⟩
        intro hnd
        rw [hcancel hw] at hnd
        exact absurd hnd (by simp)
    | timer =>
        refine ⟨by simp [Timeout, hw], by simp [Timeout, hw], ?_⟩
        intro _
        simp [Timeout, hw, hcap]
  · intro l ctx s h hcap hv
    obtain ⟨hc1, hc2, hs1, hz, hs2⟩ := hv
    have hns : s.w1 ≠ .slot := by
      intro hw
      have h1 := hs1 hw
      simp only [Chan.sendReady, decide_eq_true_eq] at h1
      rw [hc1, hcap] at h1
      exact absurd h1 (Nat.not_lt_zero _)
    unfold Forever
    by_cases h0 : l.stuckTimeout = 0
    · simp [h0, hns]
    · simp only [h0, if_false]
      cases hw : s.w1 with
      | slot => exact absurd hw hns
      | cancel => simp
      | stuckTimer =>
          have hw2 : s.w2 = false := by
            by_contra hcon
            have hw2t : s.w2 = true := by
              revert hcon; cases s.w2 <;> simp
            have h2 := hs2 hw hw2t
            simp only [Chan.sendReady, decide_eq_true_eq] at h2
            rw [hc2, hcap] at h2
            exact absurd h2 (Nat.not_lt_zero _)
          simp [hw2]

/-- Witness for `new_never_fails_amended`: capacity 3 construction, and the
capacity-0 behaviors at concrete schedules. -/
theorem new_never_fails_amended_witness :
    New 3 7 = .ok (⟨7, none, none, 0⟩, ⟨3, 0⟩) ∧
    (Timeout ⟨0, none, none, 0⟩ ⟨false, ""⟩ 0 ⟨.timer, ⟨0, 0⟩⟩
        (fun _ => ⟨0, 0⟩)).err = some (.timeoutErr (timeoutMsg 0 0)) ∧
    (Forever ⟨0, none, none, 0⟩ ⟨true, "context canceled"⟩
        ⟨.cancel, ⟨0, 0⟩, false, ⟨0, 0⟩⟩ (fun _ => ⟨0, 0⟩)).permit =
      some .noop :=
  ⟨new_never_fails_amended.1 3 (by decide) 7,
   (new_never_fails_amended.2.1 ⟨0, none, none, 0⟩ ⟨false, ""⟩
      ⟨.timer, ⟨0, 0⟩⟩ (fun _ => ⟨0, 0⟩) (by decide) (by decide)).2.2 rfl,
   new_never_fails_amended.2.2 ⟨0, none, none, 0⟩ ⟨true, "context canceled"⟩
      ⟨.cancel, ⟨0, 0⟩, false, ⟨0, 0⟩⟩ (fun _ => ⟨0, 0⟩) (by decide)
      (by decide)⟩

/-- C9. `Unlimited` is pure and stateless: its body allocates the bypass
token `unlimited[T]{}` and performs no channel operation, so the returned
value satisfies the sealed `Enforced` contract while the channel store — and
hence the occupancy of every existing gate — is exactly what it was. -/
theorem unlimited_pure_stateless :
    ∀ h : Heap, (Unlimited h).1 = Enforced.ofUnlimited ∧
      (Unlimited h).2 = h ∧
      ∀ r : Nat, ((Unlimited h).2 r).len = (h r).len :=
  fun _ => ⟨rfl, rfl, fun _ => rfl⟩

/-- C10. A stuck timeout of exactly 0 means "not configured": `Forever`
tests `stuckTimeout == 0` and then never creates a timer nor reads either
callback, so a view built by `SetForeverMessaging(0, sc, uc)` behaves — in
permit, pool effect, and (empty) callback trace — exactly like the same
gate with no stuck messaging at all, under every schedule. -/
theorem setForeverMessaging_zero_disables :
    ∀ (l : Limit) (sc uc : Option Unit) (ctx : Ctx) (s : Sched) (h : Heap),
      (Forever (SetForeverMessaging l 0 sc uc) ctx s h).events = [] ∧
      Forever (SetForeverMessaging l 0 sc uc) ctx s h =
        Forever (SetForeverMessaging l 0 none none) ctx s h ∧
      Forever (SetForeverMessaging l 0 sc uc) ctx s h =
        Forever ⟨l.queue, none, none, 0⟩ ctx s h := by
  intro l sc uc ctx s h
  refine ⟨?_, ?_, ?_⟩ <;>
    · unfold Forever SetForeverMessaging
      by_cases hw : s.w1 = .slot <;> simp [hw]

end Simultaneous
